import Mathlib

/-!
Verification of the reliability core of `server.py` (ChatCast).

The definitions below are a shallow embedding of the protocol logic in
`handle_reliable_event` / `on_reliable_event` (src/server.py, lines 56-243 and
385-401), together with the pieces of the Python standard library the code
relies on (`zlib.crc32`, `base64.b64decode`, `str.lower`, `int(...)`,
utf-8 encoding, hex formatting).  Machine integers are modelled as `Nat`/`Int`
with explicit masking where the source masks.  The `result` summary dict that
`handle_reliable_event` returns for the test harness is not modelled; the
observable behaviour verified here is the list of emitted CONTROL frames and
the transfer-state registry.
-/

namespace ChatCast

/-- A wire value that may sit under a dict key such as `seq`: the handler
applies Python `int(...)` to it, which succeeds on ints and numeric strings
and raises otherwise. -/
inductive PyVal where
  | pInt : ℤ → PyVal
  | pStr : String → PyVal
deriving DecidableEq, Repr

/-- Decimal value of a digit string, `none` when empty or containing a
non-digit. -/
def decDigitsVal : List Char → Option ℕ
  | [] => none
  | l =>
    if l.all (fun c => decide ('0' ≤ c) && decide (c ≤ '9')) then
      some (l.foldl (fun a c => 10 * a + (c.toNat - 48)) 0)
    else none

/-- Python `int(str)`: an optional leading minus sign followed by decimal
digits; anything else raises `ValueError`. -/
def pyStrToInt (s : String) : Option ℤ :=
  match s.data with
  | '-' :: rest => (decDigitsVal rest).map (fun n => -(n : ℤ))
  | l => (decDigitsVal l).map (fun n => (n : ℤ))

/-- Python `int(v)`: identity on ints, parse on strings, raising `ValueError`
on non-numeric strings. -/
def pyInt : PyVal → Except String ℤ
  | .pInt n => .ok n
  | .pStr s =>
    match pyStrToInt s with
    | some n => .ok n
    | none => .error ("invalid literal for int() with base 10: " ++ s)

/-- `int(data.get(key, 0))` for an optional wire value (absent key defaults
to `0`). Used at `seq = int(data.get('seq', 0))` and
`total_chunks = int(data.get('total_chunks', 0))`. -/
def pyIntD : Option PyVal → Except String ℤ
  | none => .ok 0
  | some v => pyInt v

/-- Python `str.lower` on one ASCII character. -/
def pyLowerChar (c : Char) : Char :=
  if 'A' ≤ c ∧ c ≤ 'Z' then Char.ofNat (c.toNat + 32) else c

/-- Python `str.lower`. -/
def pyLower (s : String) : String := ⟨s.data.map pyLowerChar⟩

/-- One lowercase hexadecimal digit, as produced by Python `format(v, '08x')`. -/
def hexDigit (n : ℕ) : Char :=
  if n < 10 then Char.ofNat (48 + n) else Char.ofNat (87 + n)

/-- Hexadecimal digits, most significant first, with explicit fuel so the
definition is structurally recursive (the fuel `n + 1` always suffices,
since a number has at most `n + 1` hex digits). -/
def natHexDigitsAux : ℕ → ℕ → List Char
  | 0, _ => []
  | fuel + 1, n =>
    if n < 16 then [hexDigit n]
    else natHexDigitsAux fuel (n / 16) ++ [hexDigit (n % 16)]

/-- Hexadecimal digits of a natural number, most significant first
(no leading zeros; `0` renders as `"0"`). -/
def natHexDigits (n : ℕ) : List Char := natHexDigitsAux (n + 1) n

/-- Left-pad a digit string with `'0'` up to width `w`. -/
def zeroPad (w : ℕ) (l : List Char) : List Char :=
  List.replicate (w - l.length) '0' ++ l

/-- Python `f"{v:08x}"`: minimum width 8, zero padded, lowercase; a negative
value is rendered with a leading minus sign that counts toward the width. -/
def pyHex08 (v : ℤ) : String :=
  if v < 0 then ⟨'-' :: zeroPad 7 (natHexDigits v.natAbs)⟩
  else ⟨zeroPad 8 (natHexDigits v.toNat)⟩

/-- Python `^` (bitwise XOR) on arbitrary ints, two's complement semantics:
`negSucc n` has the bit pattern of `~n`. -/
def pyXor : ℤ → ℤ → ℤ
  | .ofNat m, .ofNat n => .ofNat (m ^^^ n)
  | .ofNat m, .negSucc n => .negSucc (m ^^^ n)
  | .negSucc m, .ofNat n => .negSucc (m ^^^ n)
  | .negSucc m, .negSucc n => .ofNat (m ^^^ n)

/-- The CRC-32 reversed polynomial used by `zlib.crc32`. -/
def crcPoly : ℕ := 0xEDB88320

/-- One bit step of the CRC-32 shift register. -/
def crcStepBit (c : ℕ) : ℕ :=
  if c % 2 = 1 then (c / 2) ^^^ crcPoly else c / 2

/-- One byte step of CRC-32: xor the byte in, then shift eight times. -/
def crcStepByte (c b : ℕ) : ℕ :=
  crcStepBit (crcStepBit (crcStepBit (crcStepBit
    (crcStepBit (crcStepBit (crcStepBit (crcStepBit (c ^^^ b))))))))

/-- `zlib.crc32(bytes)` with the default initial value `0`. -/
def crc32 (bytes : List ℕ) : ℕ :=
  (bytes.foldl crcStepByte 0xFFFFFFFF) ^^^ 0xFFFFFFFF

/-- The integrity tag of server.py lines 156-164: 32-bit CRC of the raw
payload, XORed with the sequence number, rendered as zero-padded lowercase
hex (`local_crc = zlib.crc32(raw) & 0xFFFFFFFF`;
`calculated_integrity_value = local_crc ^ seq`; `f"{...:08x}"`). -/
def tagFor (p : List ℕ) (seq : ℤ) : String :=
  pyHex08 (pyXor ((crc32 p % 4294967296 : ℕ) : ℤ) seq)

/-- The verification comparison of server.py lines 95 and 167:
`calculated_hex.lower() == checksum.lower()`. -/
def verifyTag (p : List ℕ) (seq : ℤ) (received : String) : Bool :=
  pyLower (tagFor p seq) == pyLower received

/-- UTF-8 encoding of one character (Python `str.encode('utf-8')`). -/
def utf8Bytes (c : Char) : List ℕ :=
  let n := c.toNat
  if n < 128 then [n]
  else if n < 2048 then [192 + n / 64, 128 + n % 64]
  else if n < 65536 then [224 + n / 4096, 128 + (n / 64) % 64, 128 + n % 64]
  else [240 + n / 262144, 128 + (n / 4096) % 64, 128 + (n / 64) % 64, 128 + n % 64]

/-- Python `payload.encode('utf-8')`. -/
def pyEncodeUtf8 (s : String) : List ℕ :=
  s.data.foldr (fun c acc => utf8Bytes c ++ acc) []

/-- Value of one base64 alphabet character, `none` for non-alphabet
characters. -/
def b64Index (c : Char) : Option ℕ :=
  if 'A' ≤ c ∧ c ≤ 'Z' then some (c.toNat - 65)
  else if 'a' ≤ c ∧ c ≤ 'z' then some (c.toNat - 71)
  else if '0' ≤ c ∧ c ≤ '9' then some (c.toNat + 4)
  else if c = '+' then some 62
  else if c = '/' then some 63
  else none

/-- `base64.b64decode` (with default `validate=False`) keeps only alphabet
characters and padding before decoding. -/
def b64Keep (c : Char) : Bool := (b64Index c).isSome || c = '='

/-- Decode a cleaned base64 character stream four characters at a time;
`none` models `binascii.Error` (bad padding / stray `=`). -/
def b64Quads : List Char → Option (List ℕ)
  | [] => some []
  | a :: b :: c :: d :: rest =>
    match b64Index a, b64Index b with
    | some va, some vb =>
      if c = '=' then
        if d = '=' ∧ rest = [] then some [va * 4 + vb / 16] else none
      else
        match b64Index c with
        | some vc =>
          if d = '=' then
            if rest = [] then some [va * 4 + vb / 16, (vb % 16) * 16 + vc / 4]
            else none
          else
            match b64Index d with
            | some vd =>
              match b64Quads rest with
              | some t => some ((va * 4 + vb / 16) :: ((vb % 16) * 16 + vc / 4)
                                :: ((vc % 4) * 64 + vd) :: t)
              | none => none
            | none => none
        | none => none
    | _, _ => none
  | _ => none

/-- `base64.b64decode(s.encode('utf-8'))`: discard non-alphabet characters,
then decode; `none` models the raised `binascii.Error`. -/
def b64decode (s : String) : Option (List ℕ) :=
  b64Quads (s.data.filter b64Keep)

/-- The per-transfer metadata captured from the first chunk
(server.py lines 192-197). -/
structure TransferMeta where
  total_chunks : ℤ
  chunk_size : Option ℤ
  filename : Option String
  total_size : Option ℤ
deriving DecidableEq, Repr

/-- One entry of `transfer_states` (server.py line 53):
received sequence numbers, highest contiguous prefix boundary, metadata. -/
structure TransferState where
  received : Finset ℤ
  highest_contig : ℤ
  meta : TransferMeta
deriving DecidableEq

/-- The `transfer_states` dict, as an association list keyed by transfer id. -/
abbrev Registry := List (String × TransferState)

/-- Dict lookup `transfer_states.get(tid)`. -/
def regGet : Registry → String → Option TransferState
  | [], _ => none
  | (k, v) :: rest, key => if k = key then some v else regGet rest key

/-- Dict store `transfer_states[tid] = st` (replace or append). -/
def regSet : Registry → String → TransferState → Registry
  | [], key, v => [(key, v)]
  | (k, w) :: rest, key, v =>
    if k = key then (key, v) :: rest else (k, w) :: regSet rest key v

/-- One CONTROL frame handed to `_send_control` (server.py line 56); the
`meta` sub-dict fields are flattened into optional fields. -/
structure Control where
  cmd : String
  seq : Option PyVal := none
  transfer_id : Option String := none
  reason : Option String := none
  expected : Option String := none
  received : Option String := none
  integrity_status : Option String := none
  missing : Option (List ℤ) := none
deriving DecidableEq, Repr

/-- The observable outcome of one `handle_reliable_event` invocation:
frames pushed through `send`, and the registry afterwards. -/
structure HandleOut where
  sends : List Control
  reg : Registry
deriving DecidableEq

/-- An inbound `data` dict, restricted to the keys the handler reads.
Absent keys are `none`. -/
structure FrameData where
  typ : Option String := none
  seq : Option PyVal := none
  payload : Option String := none
  checksum : Option String := none
  payload_b64 : Option String := none
  transfer_id : Option String := none
  total_chunks : Option PyVal := none
  chunk_size : Option ℤ := none
  filename : Option String := none
  total_size : Option ℤ := none
  cmd : Option String := none
deriving DecidableEq, Repr

/-- The `while (hc + 1) in st['received']: hc += 1` loop of server.py
lines 204-205, with explicit fuel (the set is finite, so `received.card`
fuel suffices to reach the fixpoint). -/
def advanceHC (r : Finset ℤ) (hc : ℤ) : ℕ → ℤ
  | 0 => hc
  | f + 1 => if hc + 1 ∈ r then advanceHC r (hc + 1) f else hc

/-- Lines 201-206: insert a freshly received sequence number and advance the
contiguous boundary incrementally. -/
def recordSeq (st : TransferState) (seq : ℤ) : TransferState :=
  if seq ∈ st.received then st
  else
    let received := insert seq st.received
    { st with
      received := received
      highest_contig := advanceHC received st.highest_contig received.card }

/-- Lines 188-198: the state looked up for this transfer, or a fresh one
seeded from this chunk's fields. -/
def freshState (data : FrameData) (total_chunks : ℤ) : TransferState :=
  { received := ∅
    highest_contig := -1
    meta :=
      { total_chunks := total_chunks
        chunk_size := data.chunk_size
        filename := data.filename
        total_size := data.total_size } }

/-- The transfer state stored back by a valid chunk: the existing entry (or a
fresh one) with this sequence number recorded. -/
def chunkState (data : FrameData) (total_chunks : ℤ) (reg : Registry)
    (tid : String) (seq : ℤ) : TransferState :=
  recordSeq ((regGet reg tid).getD (freshState data total_chunks)) seq

/-- The ACK emitted for a valid chunk (server.py lines 208-217). -/
def chunkAck (tid : String) (seq : ℤ) (expectedTag receivedTag : String) :
    Control :=
  { cmd := "ACK"
    transfer_id := some tid
    seq := some (.pInt seq)
    integrity_status := some "valid"
    expected := some expectedTag
    received := some receivedTag }

/-- `missing = [i for i in range(total) if i not in st['received']]`
(server.py line 234). -/
def missingOf (r : Finset ℤ) (total : ℤ) : List ℤ :=
  (List.map (fun k : ℕ => (k : ℤ)) (List.range total.toNat)).filter
    (fun i => decide (i ∉ r))

/-- The `FILE_CHUNK` branch of `handle_reliable_event` (server.py
lines 131-223), after `seq` and `total_chunks` have been converted by
`int(...)`. -/
def chunkBranch (data : FrameData) (seq total_chunks : ℤ) (reg : Registry) :
    HandleOut :=
  let checksum := data.checksum.getD ""
  let payload_b64 := data.payload_b64.getD ""
  if data.transfer_id.getD "" = "" then
    ⟨[{ cmd := "NACK", seq := some (.pInt seq), transfer_id := data.transfer_id,
        reason := some "missing_transfer_id" }], reg⟩
  else
    let tid := data.transfer_id.getD ""
    match b64decode payload_b64 with
    | none =>
      ⟨[{ cmd := "NACK", seq := some (.pInt seq), transfer_id := some tid,
          reason := some "invalid_base64" }], reg⟩
    | some raw =>
      let calculated_hex := tagFor raw seq
      if pyLower calculated_hex ≠ pyLower checksum then
        ⟨[{ cmd := "INTEGRITY_FAIL", seq := some (.pInt seq),
            transfer_id := some tid, reason := some "integrity_compromised",
            expected := some calculated_hex, received := some checksum }], reg⟩
      else
        let st := chunkState data total_chunks reg tid seq
        let cum :=
          if st.meta.total_chunks ≠ 0 then
            if seq % 4 = 0 ∨ st.highest_contig = st.meta.total_chunks - 1 then
              [{ cmd := "CUM_ACK", transfer_id := some tid,
                 seq := some (.pInt st.highest_contig) : Control }]
            else []
          else []
        ⟨chunkAck tid seq calculated_hex checksum :: cum, regSet reg tid st⟩

/-- The `MSG` branch of `handle_reliable_event` (server.py lines 80-129);
it never touches the registry, so only the emitted frames are returned. -/
def msgBranch (data : FrameData) (seq : ℤ) : List Control :=
  let payload := data.payload.getD ""
  let checksum := data.checksum.getD ""
  if checksum ≠ "" then
    let payload_bytes := pyEncodeUtf8 payload
    let calculated_hex := tagFor payload_bytes seq
    if pyLower calculated_hex ≠ pyLower checksum then
      [{ cmd := "INTEGRITY_FAIL", seq := some (.pInt seq),
         transfer_id := some "MSG", reason := some "integrity_compromised",
         expected := some calculated_hex, received := some checksum }]
    else
      [{ cmd := "ACK", seq := some (.pInt seq),
         integrity_status := some "valid", expected := some calculated_hex,
         received := some checksum }]
  else
    [{ cmd := "ACK", seq := some (.pInt seq) }]

/-- The `RESUME_REQUEST` response (server.py lines 229-238). -/
def resumeRespond (reg : Registry) (tid : String) : HandleOut :=
  match regGet reg tid with
  | none =>
    ⟨[{ cmd := "CUM_ACK", transfer_id := some tid,
        seq := some (.pInt (-1)) }], reg⟩
  | some st =>
    let missing := missingOf st.received st.meta.total_chunks
    if missing ≠ [] then
      ⟨[{ cmd := "MISSING", transfer_id := some tid,
          missing := some missing }], reg⟩
    else
      ⟨[{ cmd := "CUM_ACK", transfer_id := some tid,
          seq := some (.pInt st.highest_contig) }], reg⟩

/-- The `CONTROL` branch of `handle_reliable_event` (server.py
lines 225-240). -/
def controlBranch (data : FrameData) (reg : Registry) : HandleOut :=
  if data.cmd = some "RESUME_REQUEST" ∧ ¬ data.transfer_id.getD "" = "" then
    resumeRespond reg (data.transfer_id.getD "")
  else ⟨[], reg⟩

/-- Sequencing of the fallible `int(...)` conversions: an exception
propagates out of the handler. -/
def exBind (e : Except String ℤ) (f : ℤ → Except String HandleOut) :
    Except String HandleOut :=
  match e with
  | .error msg => .error msg
  | .ok v => f v

/-- `handle_reliable_event(data, sid, send)` (server.py lines 72-243):
dispatch on `data.get('type')`.  A raised exception is modelled as
`Except.error`; both `int(...)` conversions happen before any send or
registry write, so an error carries no partial effect. -/
def handle_reliable_event (data : FrameData) (reg : Registry) :
    Except String HandleOut :=
  if data.typ = some "MSG" then
    exBind (pyIntD data.seq) (fun seq => .ok ⟨msgBranch data seq, reg⟩)
  else if data.typ = some "FILE_CHUNK" then
    exBind (pyIntD data.seq) (fun seq =>
      exBind (pyIntD data.total_chunks) (fun total_chunks =>
        .ok (chunkBranch data seq total_chunks reg)))
  else if data.typ = some "CONTROL" then
    .ok (controlBranch data reg)
  else
    .ok ⟨[], reg⟩

/-- `on_reliable_event` (server.py lines 385-401): the outermost dispatch;
any exception is caught and converted into a NACK whose `seq` is the raw
`data.get('seq', -1)` and whose reason is `'exception:' + str(exc)`. -/
def on_reliable_event (data : FrameData) (reg : Registry) :
    List Control × Registry :=
  match handle_reliable_event data reg with
  | .ok out => (out.sends, out.reg)
  | .error exc =>
    ([{ cmd := "NACK", seq := some (data.seq.getD (.pInt (-1))),
        reason := some ("exception:" ++ exc) }], reg)

/-- Registries reachable from the empty `transfer_states` dict by any
sequence of inbound frames. -/
inductive Reach : Registry → Prop
  | init : Reach []
  | step (data : FrameData) {reg : Registry} :
      Reach reg → Reach (on_reliable_event data reg).2

/-- The registry invariant of §3 of the design: `highest_contig` is at least
`-1`, everything in `0..highest_contig` has been received, and
`highest_contig + 1` has not (so it is the largest contiguous boundary). -/
def contigOK (r : Finset ℤ) (hc : ℤ) : Prop :=
  -1 ≤ hc ∧ (∀ i ∈ Finset.Icc (0 : ℤ) hc, i ∈ r) ∧ hc + 1 ∉ r

instance (r : Finset ℤ) (hc : ℤ) : Decidable (contigOK r hc) := by
  unfold contigOK; infer_instance

/-- Every state stored in the registry satisfies the contiguity invariant. -/
def regOK (reg : Registry) : Prop :=
  ∀ tid st, regGet reg tid = some st → contigOK st.received st.highest_contig

/-- Numeric value of one lowercase hex digit (proof-side inverse of
`hexDigit`). -/
def hexVal (c : Char) : ℕ :=
  if 97 ≤ c.toNat then c.toNat - 87 else c.toNat - 48

/-- Base-16 valuation of a digit string, accumulator style (proof-side
inverse of hex rendering). -/
def valFrom (a : ℕ) (l : List Char) : ℕ :=
  l.foldl (fun x c => 16 * x + hexVal c) a

/-- A well-formed first chunk of a one-chunk transfer `"t"`: empty payload,
sequence 0, matching integrity tag. -/
def demoChunk : FrameData :=
  { typ := some "FILE_CHUNK", seq := some (.pInt 0),
    checksum := some "00000000", payload_b64 := some "",
    transfer_id := some "t", total_chunks := some (.pInt 1) }

/-- The transfer state `demoChunk` creates. -/
def demoSt : TransferState :=
  { received := {0}, highest_contig := 0,
    meta := { total_chunks := 1, chunk_size := none, filename := none,
              total_size := none } }

/-- The registry after `demoChunk` hits the empty registry. -/
def demoReg : Registry := (on_reliable_event demoChunk []).2

/-- A chunk whose base64 payload is undecodable (three data characters is
an invalid padding length). -/
def badB64Chunk : FrameData :=
  { typ := some "FILE_CHUNK", seq := some (.pInt 0),
    payload_b64 := some "abc", transfer_id := some "t" }

/-- A frame whose `seq` value makes `int(...)` raise. -/
def badSeqFrame : FrameData :=
  { typ := some "MSG", seq := some (.pStr "x") }

/-- A plain message with no integrity tag. -/
def demoMsg : FrameData :=
  { typ := some "MSG", seq := some (.pInt 7), payload := some "hello" }

/-- A resume request for transfer `"t"`. -/
def resumeFrame : FrameData :=
  { typ := some "CONTROL", cmd := some "RESUME_REQUEST",
    transfer_id := some "t" }

/-- A chunk whose supplied tag does not match its payload and sequence. -/
def badTagChunk : FrameData :=
  { typ := some "FILE_CHUNK", seq := some (.pInt 0),
    checksum := some "deadbeef", payload_b64 := some "",
    transfer_id := some "t" }

/-- A chunk with no checksum field at all. -/
def noChecksumChunk : FrameData :=
  { typ := some "FILE_CHUNK", seq := some (.pInt 0),
    payload_b64 := some "", transfer_id := some "t" }

/-! ## Hex rendering and lowercasing lemmas -/

theorem hexVal_hexDigit (d : ℕ) (h : d < 16) : hexVal (hexDigit d) = d := by
  interval_cases d <;> decide

theorem valFrom_append (a : ℕ) (l1 l2 : List Char) :
    valFrom a (l1 ++ l2) = valFrom (valFrom a l1) l2 := by
  simp [valFrom]

theorem lt_sixteen_pow (n : ℕ) : n < 16 ^ (n + 1) := by
  calc n < 2 ^ n := Nat.lt_two_pow n
    _ ≤ 16 ^ n := Nat.pow_le_pow_left (by omega) n
    _ ≤ 16 ^ (n + 1) := Nat.pow_le_pow_right (by omega) (by omega)

theorem valFrom_natHexDigitsAux (fuel : ℕ) :
    ∀ n, n < 16 ^ fuel → valFrom 0 (natHexDigitsAux fuel n) = n := by
  induction fuel with
  | zero =>
    intro n hn
    have : n = 0 := by simpa using hn
    rw [this]
    rfl
  | succ fuel ih =>
    intro n hn
    show valFrom 0 (if n < 16 then [hexDigit n]
      else natHexDigitsAux fuel (n / 16) ++ [hexDigit (n % 16)]) = n
    split
    · next h =>
      show 16 * 0 + hexVal (hexDigit n) = n
      rw [hexVal_hexDigit n h]
      omega
    · next h =>
      have hdiv : n / 16 < 16 ^ fuel := by
        rw [Nat.div_lt_iff_lt_mul (by omega)]
        calc n < 16 ^ (fuel + 1) := hn
          _ = 16 ^ fuel * 16 := by rw [pow_succ]
      rw [valFrom_append, ih (n / 16) hdiv]
      show 16 * (n / 16) + hexVal (hexDigit (n % 16)) = n
      rw [hexVal_hexDigit (n % 16) (Nat.mod_lt _ (by omega))]
      omega

theorem valFrom_natHexDigits (n : ℕ) : valFrom 0 (natHexDigits n) = n :=
  valFrom_natHexDigitsAux (n + 1) n (lt_sixteen_pow n)

theorem valFrom_replicate_zero (k : ℕ) :
    valFrom 0 (List.replicate k '0') = 0 := by
  induction k with
  | zero => rfl
  | succ k ih =>
    rw [List.replicate_succ]
    show valFrom (16 * 0 + hexVal '0') (List.replicate k '0') = 0
    have h0 : 16 * 0 + hexVal '0' = 0 := by decide
    rw [h0]
    exact ih

theorem valFrom_zeroPad (w : ℕ) (l : List Char) :
    valFrom 0 (zeroPad w l) = valFrom 0 l := by
  unfold zeroPad
  rw [valFrom_append, valFrom_replicate_zero]

theorem pyHex08_inj (a b : ℤ) (ha : 0 ≤ a) (hb : 0 ≤ b)
    (h : pyHex08 a = pyHex08 b) : a = b := by
  unfold pyHex08 at h
  rw [if_neg (by omega), if_neg (by omega)] at h
  have hd : zeroPad 8 (natHexDigits a.toNat) = zeroPad 8 (natHexDigits b.toNat) :=
    congrArg String.data h
  have hv := congrArg (valFrom 0) hd
  rw [valFrom_zeroPad, valFrom_zeroPad, valFrom_natHexDigits,
    valFrom_natHexDigits] at hv
  omega

theorem mem_natHexDigitsAux (fuel : ℕ) :
    ∀ n, ∀ c ∈ natHexDigitsAux fuel n, ∃ d, d < 16 ∧ c = hexDigit d := by
  induction fuel with
  | zero =>
    intro n c hc
    exact absurd hc (List.not_mem_nil c)
  | succ fuel ih =>
    intro n c hc
    rw [show natHexDigitsAux (fuel + 1) n = if n < 16 then [hexDigit n]
      else natHexDigitsAux fuel (n / 16) ++ [hexDigit (n % 16)] from rfl] at hc
    split at hc
    · next h =>
      rw [List.mem_singleton] at hc
      exact ⟨n, h, hc⟩
    · next h =>
      rw [List.mem_append] at hc
      rcases hc with hc | hc
      · exact ih (n / 16) c hc
      · rw [List.mem_singleton] at hc
        exact ⟨n % 16, Nat.mod_lt _ (by omega), hc⟩

theorem mem_natHexDigits (n : ℕ) :
    ∀ c ∈ natHexDigits n, ∃ d, d < 16 ∧ c = hexDigit d :=
  mem_natHexDigitsAux (n + 1) n

theorem pyLowerChar_hexDigit (d : ℕ) (h : d < 16) :
    pyLowerChar (hexDigit d) = hexDigit d := by
  interval_cases d <;> decide

theorem pyLower_pyHex08 (v : ℤ) (hv : 0 ≤ v) :
    pyLower (pyHex08 v) = pyHex08 v := by
  unfold pyHex08
  rw [if_neg (by omega)]
  show String.mk ((zeroPad 8 (natHexDigits v.toNat)).map pyLowerChar) = _
  congr 1
  unfold zeroPad
  rw [List.map_append, List.map_replicate]
  have hz : pyLowerChar '0' = '0' := by decide
  rw [hz]
  congr 1
  have hfix : ∀ c ∈ natHexDigits v.toNat, pyLowerChar c = c := by
    intro c hc
    obtain ⟨d, hd, rfl⟩ := mem_natHexDigits v.toNat c hc
    exact pyLowerChar_hexDigit d hd
  calc (natHexDigits v.toNat).map pyLowerChar
      = (natHexDigits v.toNat).map id := List.map_congr_left hfix
    _ = natHexDigits v.toNat := List.map_id _

theorem one_le_length_natHexDigits (n : ℕ) :
    1 ≤ (natHexDigits n).length := by
  show 1 ≤ (if n < 16 then [hexDigit n]
    else natHexDigitsAux n (n / 16) ++ [hexDigit (n % 16)]).length
  split
  · simp
  · simp

theorem natHexDigitsAux_length_le (fuel : ℕ) :
    ∀ n k, n < 16 ^ k → (natHexDigitsAux fuel n).length ≤ max k 1 := by
  induction fuel with
  | zero =>
    intro n k _
    simp [natHexDigitsAux]
  | succ fuel ih =>
    intro n k hlt
    show (if n < 16 then [hexDigit n]
      else natHexDigitsAux fuel (n / 16) ++ [hexDigit (n % 16)]).length ≤ max k 1
    split
    · simp
    · next h =>
      rw [List.length_append]
      have hk2 : 2 ≤ k := by
        by_contra hk0
        have hk1 : k ≤ 1 := by omega
        have : (16 : ℕ) ^ k ≤ 16 ^ 1 := Nat.pow_le_pow_right (by omega) hk1
        simp at this
        omega
      have hdiv : n / 16 < 16 ^ (k - 1) := by
        rw [Nat.div_lt_iff_lt_mul (by omega)]
        calc n < 16 ^ k := hlt
          _ = 16 ^ (k - 1) * 16 := by
            rw [← pow_succ]
            congr 1
            omega
      have := ih (n / 16) (k - 1) hdiv
      simp only [List.length_singleton]
      omega

theorem natHexDigits_length_le (k : ℕ) :
    ∀ n, 1 ≤ k → n < 16 ^ k → (natHexDigits n).length ≤ k := by
  intro n hk hlt
  have h := natHexDigitsAux_length_le (n + 1) n k hlt
  unfold natHexDigits
  omega

theorem pyHex08_length_eight (v : ℤ) (h0 : 0 ≤ v) (hlt : v < 4294967296) :
    (pyHex08 v).length = 8 := by
  unfold pyHex08
  rw [if_neg (by omega)]
  show (zeroPad 8 (natHexDigits v.toNat)).length = 8
  unfold zeroPad
  rw [List.length_append, List.length_replicate]
  have h1 := one_le_length_natHexDigits v.toNat
  have hv : v.toNat < 16 ^ 8 := by
    have h16 : (16 : ℕ) ^ 8 = 4294967296 := by norm_num
    omega
  have h2 := natHexDigits_length_le 8 v.toNat (by omega) hv
  omega

theorem eight_le_pyHex08_length (v : ℤ) : 8 ≤ (pyHex08 v).length := by
  unfold pyHex08
  split
  · show 8 ≤ ('-' :: zeroPad 7 (natHexDigits v.natAbs)).length
    rw [List.length_cons]
    unfold zeroPad
    rw [List.length_append, List.length_replicate]
    omega
  · show 8 ≤ (zeroPad 8 (natHexDigits v.toNat)).length
    unfold zeroPad
    rw [List.length_append, List.length_replicate]
    omega

theorem pyHex08_ne_empty (v : ℤ) : pyHex08 v ≠ "" := by
  intro h
  have h8 := eight_le_pyHex08_length v
  rw [h] at h8
  exact absurd h8 (by decide)

theorem pyLower_length (s : String) : (pyLower s).length = s.length := by
  show (s.data.map pyLowerChar).length = s.data.length
  rw [List.length_map]

/-! ## Contiguity invariant lemmas -/

theorem advanceHC_le (r : Finset ℤ) :
    ∀ (f : ℕ) (hc : ℤ), hc ≤ advanceHC r hc f := by
  intro f
  induction f with
  | zero => intro hc; exact le_refl _
  | succ f ih =>
    intro hc
    unfold advanceHC
    split
    · exact le_trans (by omega) (ih (hc + 1))
    · exact le_refl _

theorem advanceHC_mem (r : Finset ℤ) :
    ∀ (f : ℕ) (hc : ℤ), (∀ i ∈ Finset.Icc (0 : ℤ) hc, i ∈ r) →
      ∀ i ∈ Finset.Icc (0 : ℤ) (advanceHC r hc f), i ∈ r := by
  intro f
  induction f with
  | zero => intro hc h; exact h
  | succ f ih =>
    intro hc h
    unfold advanceHC
    split
    · next hmem =>
      apply ih (hc + 1)
      intro i hi
      rw [Finset.mem_Icc] at hi
      by_cases hieq : i = hc + 1
      · rw [hieq]; exact hmem
      · exact h i (Finset.mem_Icc.mpr ⟨hi.1, by omega⟩)
    · exact h

theorem advanceHC_stop (r : Finset ℤ) :
    ∀ (f : ℕ) (hc : ℤ), (r.filter (fun x => hc < x)).card ≤ f →
      advanceHC r hc f + 1 ∉ r := by
  intro f
  induction f with
  | zero =>
    intro hc hcard
    show hc + 1 ∉ r
    intro hmem
    have hin : hc + 1 ∈ r.filter (fun x => hc < x) :=
      Finset.mem_filter.mpr ⟨hmem, by omega⟩
    have := Finset.card_pos.mpr ⟨_, hin⟩
    omega
  | succ f ih =>
    intro hc hcard
    unfold advanceHC
    split
    · next hmem =>
      apply ih (hc + 1)
      have hsub : r.filter (fun x => hc + 1 < x) ⊆
          (r.filter (fun x => hc < x)).erase (hc + 1) := by
        intro x hx
        rw [Finset.mem_filter] at hx
        exact Finset.mem_erase.mpr
          ⟨by omega, Finset.mem_filter.mpr ⟨hx.1, by omega⟩⟩
      have h1 : hc + 1 ∈ r.filter (fun x => hc < x) :=
        Finset.mem_filter.mpr ⟨hmem, by omega⟩
      have h2 := Finset.card_le_card hsub
      rw [Finset.card_erase_of_mem h1] at h2
      have h3 := Finset.card_pos.mpr ⟨_, h1⟩
      omega
    · next hmem => exact hmem

theorem recordSeq_contigOK (st : TransferState) (seq : ℤ)
    (h : contigOK st.received st.highest_contig) :
    contigOK (recordSeq st seq).received (recordSeq st seq).highest_contig := by
  unfold recordSeq
  split
  · exact h
  · obtain ⟨h1, h2, h3⟩ := h
    show contigOK (insert seq st.received)
      (advanceHC (insert seq st.received) st.highest_contig
        (insert seq st.received).card)
    refine ⟨le_trans h1 (advanceHC_le _ _ _), ?_, ?_⟩
    · apply advanceHC_mem
      intro i hi
      exact Finset.mem_insert_of_mem (h2 i hi)
    · exact advanceHC_stop _ _ _ (Finset.card_filter_le _ _)

theorem mem_recordSeq (st : TransferState) (seq : ℤ) :
    seq ∈ (recordSeq st seq).received := by
  unfold recordSeq
  split
  · assumption
  · exact Finset.mem_insert_self _ _

theorem recordSeq_mem_eq (st : TransferState) (seq : ℤ)
    (h : seq ∈ st.received) : recordSeq st seq = st := by
  unfold recordSeq
  rw [if_pos h]

/-! ## Registry lemmas -/

theorem regGet_regSet (reg : Registry) (k k' : String) (v : TransferState) :
    regGet (regSet reg k v) k' = if k = k' then some v else regGet reg k' := by
  induction reg with
  | nil =>
    show (if k = k' then some v else none) = _
    split <;> rfl
  | cons p rest ih =>
    obtain ⟨pk, pv⟩ := p
    show regGet (if pk = k then (k, v) :: rest else (pk, pv) :: regSet rest k v) k' = _
    by_cases h1 : pk = k
    · rw [if_pos h1]
      show (if k = k' then some v else regGet rest k') = _
      by_cases h2 : k = k'
      · rw [if_pos h2, if_pos h2]
      · rw [if_neg h2, if_neg h2]
        show regGet rest k' = regGet ((pk, pv) :: rest) k'
        have : ¬ pk = k' := by rw [h1]; exact h2
        show regGet rest k' = if pk = k' then some pv else regGet rest k'
        rw [if_neg this]
    · rw [if_neg h1]
      show (if pk = k' then some pv else regGet (regSet rest k v) k') = _
      by_cases h2 : pk = k'
      · rw [if_pos h2]
        have : ¬ k = k' := by intro hk; rw [hk] at h1; exact h1 h2
        rw [if_neg this]
        show some pv = regGet ((pk, pv) :: rest) k'
        show some pv = if pk = k' then some pv else regGet rest k'
        rw [if_pos h2]
      · rw [if_neg h2, ih]
        by_cases h3 : k = k'
        · rw [if_pos h3, if_pos h3]
        · rw [if_neg h3, if_neg h3]
          show regGet rest k' = if pk = k' then some pv else regGet rest k'
          rw [if_neg h2]

theorem regSet_regSet (reg : Registry) (k : String) (v : TransferState) :
    regSet (regSet reg k v) k v = regSet reg k v := by
  induction reg with
  | nil => simp [regSet]
  | cons p rest ih =>
    obtain ⟨pk, pv⟩ := p
    by_cases h1 : pk = k
    · subst h1
      simp [regSet]
    · simp [regSet, h1, ih]

theorem regOK_nil : regOK [] := by
  intro tid st h
  exact absurd h (by simp [regGet])

theorem regOK_regSet (reg : Registry) (k : String) (v : TransferState)
    (h : regOK reg) (hv : contigOK v.received v.highest_contig) :
    regOK (regSet reg k v) := by
  intro tid st hget
  rw [regGet_regSet] at hget
  split at hget
  · cases hget
    exact hv
  · exact h tid st hget

/-! ## Handler unfolding lemmas -/

theorem handle_msg (data : FrameData) (reg : Registry)
    (h : data.typ = some "MSG") (seq : ℤ) (hseq : pyIntD data.seq = .ok seq) :
    handle_reliable_event data reg = .ok ⟨msgBranch data seq, reg⟩ := by
  unfold handle_reliable_event
  rw [h, if_pos rfl, hseq]
  rfl

theorem handle_chunk (data : FrameData) (reg : Registry)
    (h : data.typ = some "FILE_CHUNK") (seq total : ℤ)
    (hseq : pyIntD data.seq = .ok seq)
    (htot : pyIntD data.total_chunks = .ok total) :
    handle_reliable_event data reg = .ok (chunkBranch data seq total reg) := by
  unfold handle_reliable_event
  rw [h, if_neg (by decide), if_pos rfl, hseq, htot]
  rfl

theorem handle_control (data : FrameData) (reg : Registry)
    (h : data.typ = some "CONTROL") :
    handle_reliable_event data reg = .ok (controlBranch data reg) := by
  unfold handle_reliable_event
  rw [h, if_neg (by decide), if_neg (by decide), if_pos rfl]

theorem chunkBranch_bad_b64 (data : FrameData) (seq total : ℤ)
    (reg : Registry) (tid : String)
    (htid : data.transfer_id = some tid) (hne : tid ≠ "")
    (hdec : b64decode (data.payload_b64.getD "") = none) :
    chunkBranch data seq total reg =
      ⟨[{ cmd := "NACK", seq := some (.pInt seq), transfer_id := some tid,
          reason := some "invalid_base64" }], reg⟩ := by
  unfold chunkBranch
  rw [htid]
  show (if (some tid).getD "" = "" then _ else _) = _
  rw [if_neg (by simpa using hne), hdec]
  rfl

theorem chunkBranch_integrity_fail (data : FrameData) (seq total : ℤ)
    (reg : Registry) (tid : String) (raw : List ℕ)
    (htid : data.transfer_id = some tid) (hne : tid ≠ "")
    (hdec : b64decode (data.payload_b64.getD "") = some raw)
    (hver : pyLower (tagFor raw seq) ≠ pyLower (data.checksum.getD "")) :
    chunkBranch data seq total reg =
      ⟨[{ cmd := "INTEGRITY_FAIL", seq := some (.pInt seq),
          transfer_id := some tid, reason := some "integrity_compromised",
          expected := some (tagFor raw seq),
          received := some (data.checksum.getD "") }], reg⟩ := by
  unfold chunkBranch
  rw [htid]
  show (if (some tid).getD "" = "" then _ else _) = _
  rw [if_neg (by simpa using hne), hdec]
  show (if pyLower (tagFor raw seq) ≠ pyLower (data.checksum.getD "") then _ else _) = _
  rw [if_pos hver]
  rfl

theorem chunkBranch_valid (data : FrameData) (seq total : ℤ)
    (reg : Registry) (tid : String) (raw : List ℕ)
    (htid : data.transfer_id = some tid) (hne : tid ≠ "")
    (hdec : b64decode (data.payload_b64.getD "") = some raw)
    (hver : pyLower (tagFor raw seq) = pyLower (data.checksum.getD "")) :
    chunkBranch data seq total reg =
      ⟨chunkAck tid seq (tagFor raw seq) (data.checksum.getD "") ::
        (if (chunkState data total reg tid seq).meta.total_chunks ≠ 0 then
          if seq % 4 = 0 ∨ (chunkState data total reg tid seq).highest_contig =
              (chunkState data total reg tid seq).meta.total_chunks - 1 then
            [{ cmd := "CUM_ACK", transfer_id := some tid,
               seq := some (.pInt (chunkState data total reg tid seq).highest_contig) }]
          else []
        else []),
       regSet reg tid (chunkState data total reg tid seq)⟩ := by
  unfold chunkBranch
  rw [htid]
  show (if (some tid).getD "" = "" then _ else _) = _
  rw [if_neg (by simpa using hne), hdec]
  show (if pyLower (tagFor raw seq) ≠ pyLower (data.checksum.getD "") then _ else _) = _
  rw [if_neg (not_not_intro hver)]
  rfl

theorem controlBranch_reg (data : FrameData) (reg : Registry) :
    (controlBranch data reg).reg = reg := by
  unfold controlBranch resumeRespond
  split
  · split
    · rfl
    · dsimp only
      split <;> rfl
  · rfl

/-! ## Invariant preservation through the engine -/

theorem contigOK_chunkState (data : FrameData) (total : ℤ) (reg : Registry)
    (tid : String) (seq : ℤ) (h : regOK reg) :
    contigOK (chunkState data total reg tid seq).received
      (chunkState data total reg tid seq).highest_contig := by
  unfold chunkState
  cases hg : regGet reg tid with
  | none =>
    show contigOK (recordSeq (freshState data total) seq).received
      (recordSeq (freshState data total) seq).highest_contig
    refine recordSeq_contigOK _ _ ?_
    show contigOK ∅ (-1)
    decide
  | some st0 =>
    exact recordSeq_contigOK _ _ (h _ st0 hg)

theorem regOK_chunkBranch (data : FrameData) (seq total : ℤ) (reg : Registry)
    (h : regOK reg) : regOK (chunkBranch data seq total reg).reg := by
  rcases hopt : data.transfer_id with _ | tid
  · have he : chunkBranch data seq total reg =
        ⟨[{ cmd := "NACK", seq := some (.pInt seq), transfer_id := none,
            reason := some "missing_transfer_id" }], reg⟩ := by
      unfold chunkBranch
      rw [hopt]
      rfl
    rw [he]
    exact h
  · by_cases hne : tid = ""
    · subst hne
      have he : chunkBranch data seq total reg =
          ⟨[{ cmd := "NACK", seq := some (.pInt seq),
              transfer_id := some "", reason := some "missing_transfer_id" }],
           reg⟩ := by
        unfold chunkBranch
        rw [hopt]
        rfl
      rw [he]
      exact h
    · cases hdec : b64decode (data.payload_b64.getD "") with
      | none =>
        rw [chunkBranch_bad_b64 data seq total reg tid hopt hne hdec]
        exact h
      | some raw =>
        by_cases hver : pyLower (tagFor raw seq) = pyLower (data.checksum.getD "")
        · rw [chunkBranch_valid data seq total reg tid raw hopt hne hdec hver]
          exact regOK_regSet _ _ _ h (contigOK_chunkState data total reg tid seq h)
        · rw [chunkBranch_integrity_fail data seq total reg tid raw hopt hne hdec hver]
          exact h

theorem regOK_handle (data : FrameData) (reg : Registry) (out : HandleOut)
    (h : regOK reg) (hout : handle_reliable_event data reg = .ok out) :
    regOK out.reg := by
  unfold handle_reliable_event at hout
  split_ifs at hout
  · cases hs : pyIntD data.seq with
    | error e => rw [hs] at hout; exact absurd hout (by simp [exBind])
    | ok seq =>
      rw [hs] at hout
      have : HandleOut.mk (msgBranch data seq) reg = out := by
        simpa [exBind] using hout
      rw [← this]
      exact h
  · cases hs : pyIntD data.seq with
    | error e => rw [hs] at hout; exact absurd hout (by simp [exBind])
    | ok seq =>
      rw [hs] at hout
      cases ht : pyIntD data.total_chunks with
      | error e => rw [ht] at hout; exact absurd hout (by simp [exBind])
      | ok total =>
        rw [ht] at hout
        have : chunkBranch data seq total reg = out := by
          simpa [exBind] using hout
        rw [← this]
        exact regOK_chunkBranch data seq total reg h
  · have : controlBranch data reg = out := by simpa using hout
    rw [← this, controlBranch_reg]
    exact h
  · have : HandleOut.mk [] reg = out := by simpa using hout
    rw [← this]
    exact h

theorem regOK_on (data : FrameData) (reg : Registry) (h : regOK reg) :
    regOK (on_reliable_event data reg).2 := by
  unfold on_reliable_event
  cases hh : handle_reliable_event data reg with
  | ok out => exact regOK_handle data reg out h hh
  | error e => exact h

theorem reach_regOK (reg : Registry) (h : Reach reg) : regOK reg := by
  induction h with
  | init => exact regOK_nil
  | step data _ ih => exact regOK_on _ _ ih

/-! ## Missing-list lemmas -/

theorem mem_missingOf (r : Finset ℤ) (total : ℤ) (i : ℤ) :
    i ∈ missingOf r total ↔ 0 ≤ i ∧ i < total ∧ i ∉ r := by
  unfold missingOf
  simp only [List.mem_filter, List.mem_map, List.mem_range,
    decide_eq_true_eq]
  constructor
  · rintro ⟨⟨k, hk, rfl⟩, hnr⟩
    exact ⟨by omega, by omega, hnr⟩
  · rintro ⟨h0, hlt, hnr⟩
    exact ⟨⟨i.toNat, by omega, by omega⟩, hnr⟩

theorem missingOf_sorted (r : Finset ℤ) (total : ℤ) :
    (missingOf r total).Sorted (· < ·) := by
  unfold missingOf
  apply List.Pairwise.filter
  rw [List.pairwise_map]
  refine List.Pairwise.imp ?_ (List.pairwise_lt_range _)
  intro a b hab
  exact_mod_cast hab

theorem missingOf_ne_nil (r : Finset ℤ) (total : ℤ) :
    missingOf r total ≠ [] ↔ ∃ i : ℤ, 0 ≤ i ∧ i < total ∧ i ∉ r := by
  constructor
  · intro h
    obtain ⟨i, hi⟩ := List.exists_mem_of_ne_nil _ h
    exact ⟨i, (mem_missingOf r total i).mp hi⟩
  · rintro ⟨i, hi⟩ hnil
    have := (mem_missingOf r total i).mpr hi
    rw [hnil] at this
    exact absurd this (List.not_mem_nil i)

/-! ## Arithmetic helper lemmas -/

theorem xor_lt_4294967296 (m n : ℕ) (hm : m < 4294967296)
    (hn : n < 4294967296) : m ^^^ n < 4294967296 := by
  have h : (4294967296 : ℕ) = 2 ^ 32 := by norm_num
  rw [h] at hm hn ⊢
  exact Nat.xor_lt_two_pow hm hn

theorem xor_left_cancel (c a b : ℕ) (h : c ^^^ a = c ^^^ b) : a = b := by
  have h2 := congrArg (fun x => c ^^^ x) h
  simpa [← Nat.xor_assoc, Nat.xor_self, Nat.zero_xor] using h2

/-! ## Claim theorems -/

/-- C1: in every reachable registry state, `highest_contig` is the greatest
`n` such that all of `0..n` is contained in `received` (so it is `-1` when
`0` has not been received), and a transfer that has received exactly
`0..N-1` has `highest_contig = N - 1`. -/
theorem C1_highest_contig_invariant (reg : Registry) (hreach : Reach reg)
    (tid : String) (st : TransferState) (hget : regGet reg tid = some st) :
    IsGreatest {n : ℤ | ∀ i ∈ Finset.Icc (0 : ℤ) n, i ∈ st.received}
      st.highest_contig ∧
    ((0 : ℤ) ∉ st.received → st.highest_contig = -1) ∧
    ∀ N : ℕ, st.received = (Finset.range N).image (fun k : ℕ => (k : ℤ)) →
      st.highest_contig = (N : ℤ) - 1 := by
  obtain ⟨h1, h2, h3⟩ := reach_regOK reg hreach tid st hget
  refine ⟨⟨h2, ?_⟩, ?_, ?_⟩
  · intro m hm
    by_contra hlt
    push_neg at hlt
    exact h3 (hm (st.highest_contig + 1)
      (Finset.mem_Icc.mpr ⟨by omega, by omega⟩))
  · intro h0
    by_contra hne
    exact h0 (h2 0 (Finset.mem_Icc.mpr ⟨le_refl _, by omega⟩))
  · intro N hr
    rcases Nat.eq_zero_or_pos N with rfl | hN
    · rw [Finset.range_zero, Finset.image_empty] at hr
      rw [hr] at h2
      have hne : st.highest_contig = -1 := by
        by_contra hne1
        exact absurd (h2 0 (Finset.mem_Icc.mpr ⟨le_refl _, by omega⟩))
          (Finset.not_mem_empty _)
      rw [hne]
      norm_num
    · have hub : st.highest_contig ≤ (N : ℤ) - 1 := by
        by_contra hgt
        push_neg at hgt
        have hmem : st.highest_contig ∈ st.received :=
          h2 _ (Finset.mem_Icc.mpr ⟨by omega, le_refl _⟩)
        rw [hr] at hmem
        obtain ⟨k, hk, hkeq⟩ := Finset.mem_image.mp hmem
        rw [Finset.mem_range] at hk
        omega
      have hlb : (N : ℤ) - 1 ≤ st.highest_contig := by
        by_contra hgt
        push_neg at hgt
        apply h3
        rw [hr]
        exact Finset.mem_image.mpr
          ⟨(st.highest_contig + 1).toNat, Finset.mem_range.mpr (by omega),
           by omega⟩
      omega

/-- C1 witness: the registry reached by one valid chunk frame contains
transfer "t" in state `demoSt`, whose boundary is greatest, and which has
received exactly `0..0`, so `highest_contig = 0 = 1 - 1`. -/
theorem C1_witness :
    IsGreatest {n : ℤ | ∀ i ∈ Finset.Icc (0 : ℤ) n, i ∈ demoSt.received}
      demoSt.highest_contig ∧
    demoSt.highest_contig = (1 : ℤ) - 1 := by
  have h := C1_highest_contig_invariant demoReg
    (Reach.step demoChunk Reach.init) "t" demoSt (by rfl)
  exact ⟨h.1, h.2.2 1 (by decide)⟩

/-- C2: an integrity tag bound to sequence `s` fails verification against a
different 32-bit sequence `t`; the tag is an 8-character lowercase hex
string, and verification is case-insensitive in the received tag. -/
theorem C2_integrity_binding (p : List ℕ) (s t : ℤ)
    (hs0 : 0 ≤ s) (hs : s < 4294967296) (ht0 : 0 ≤ t) (ht : t < 4294967296)
    (hne : t ≠ s) :
    verifyTag p t (tagFor p s) = false ∧
    (tagFor p s).length = 8 ∧
    pyLower (tagFor p s) = tagFor p s ∧
    (∀ u : String, pyLower u = pyLower (tagFor p s) →
      verifyTag p s u = true) := by
  obtain ⟨sn, rfl⟩ := Int.eq_ofNat_of_zero_le hs0
  obtain ⟨tn, rfl⟩ := Int.eq_ofNat_of_zero_le ht0
  have hclt : crc32 p % 4294967296 < 4294967296 := Nat.mod_lt _ (by norm_num)
  have hsn : sn < 4294967296 := by exact_mod_cast hs
  have htn : tn < 4294967296 := by exact_mod_cast ht
  have hne' : tn ≠ sn := fun h => hne (by rw [h])
  have htag_s : tagFor p (sn : ℤ) =
      pyHex08 (((crc32 p % 4294967296 ^^^ sn : ℕ) : ℤ)) := rfl
  have htag_t : tagFor p (tn : ℤ) =
      pyHex08 (((crc32 p % 4294967296 ^^^ tn : ℕ) : ℤ)) := rfl
  have hlow_s : pyLower (tagFor p (sn : ℤ)) = tagFor p (sn : ℤ) := by
    rw [htag_s]
    exact pyLower_pyHex08 _ (Int.natCast_nonneg _)
  have hlow_t : pyLower (tagFor p (tn : ℤ)) = tagFor p (tn : ℤ) := by
    rw [htag_t]
    exact pyLower_pyHex08 _ (Int.natCast_nonneg _)
  have hdiff : tagFor p (tn : ℤ) ≠ tagFor p (sn : ℤ) := by
    rw [htag_s, htag_t]
    intro h
    have hinj := pyHex08_inj _ _ (Int.natCast_nonneg _)
      (Int.natCast_nonneg _) h
    have h2 : crc32 p % 4294967296 ^^^ tn = crc32 p % 4294967296 ^^^ sn := by
      exact_mod_cast hinj
    exact hne' (xor_left_cancel _ _ _ h2)
  refine ⟨?_, ?_, hlow_s, ?_⟩
  · unfold verifyTag
    rw [hlow_t, hlow_s]
    exact beq_eq_false_iff_ne.mpr hdiff
  · rw [htag_s]
    exact pyHex08_length_eight _ (Int.natCast_nonneg _)
      (by exact_mod_cast xor_lt_4294967296 _ _ hclt hsn)
  · intro u hu
    unfold verifyTag
    rw [hu]
    exact beq_self_eq_true _

/-- C2 witness: empty payload, sequences 1 and 2. -/
theorem C2_witness :
    verifyTag [] 2 (tagFor [] 1) = false ∧
    (tagFor [] 1).length = 8 ∧
    pyLower (tagFor [] 1) = tagFor [] 1 ∧
    verifyTag [] 1 "00000001" = true := by
  obtain ⟨h1, h2, h3, h4⟩ := C2_integrity_binding [] 1 2 (by norm_num)
    (by norm_num) (by norm_num) (by norm_num) (by norm_num)
  exact ⟨h1, h2, h3, h4 "00000001" (by decide)⟩

/-- C3: a RESUME_REQUEST for an unknown transfer yields exactly one CUM_ACK
with sequence -1; for a known transfer with a missing index below
`meta.total_chunks` it yields exactly one MISSING frame whose list is the
ascending enumeration of the missing indices; otherwise it yields exactly
one CUM_ACK carrying `highest_contig`. -/
theorem C3_resume_response (data : FrameData) (reg : Registry) (tid : String)
    (htyp : data.typ = some "CONTROL")
    (hcmd : data.cmd = some "RESUME_REQUEST")
    (htid : data.transfer_id = some tid) (hne : tid ≠ "") :
    (regGet reg tid = none →
      handle_reliable_event data reg =
        .ok ⟨[{ cmd := "CUM_ACK", transfer_id := some tid,
                seq := some (.pInt (-1)) }], reg⟩) ∧
    ∀ st, regGet reg tid = some st →
      ((∃ i : ℤ, 0 ≤ i ∧ i < st.meta.total_chunks ∧ i ∉ st.received) →
        handle_reliable_event data reg =
          .ok ⟨[{ cmd := "MISSING", transfer_id := some tid,
                  missing := some (missingOf st.received st.meta.total_chunks) }],
               reg⟩ ∧
        (missingOf st.received st.meta.total_chunks).Sorted (· < ·) ∧
        ∀ i : ℤ, i ∈ missingOf st.received st.meta.total_chunks ↔
          0 ≤ i ∧ i < st.meta.total_chunks ∧ i ∉ st.received) ∧
      ((¬ ∃ i : ℤ, 0 ≤ i ∧ i < st.meta.total_chunks ∧ i ∉ st.received) →
        handle_reliable_event data reg =
          .ok ⟨[{ cmd := "CUM_ACK", transfer_id := some tid,
                  seq := some (.pInt st.highest_contig) }], reg⟩) := by
  have hcb : controlBranch data reg = resumeRespond reg tid := by
    unfold controlBranch
    rw [hcmd, htid]
    rw [if_pos ⟨rfl, hne⟩]
    rfl
  refine ⟨?_, ?_⟩
  · intro h0
    rw [handle_control data reg htyp, hcb]
    unfold resumeRespond
    rw [h0]
  · intro st hst
    constructor
    · intro hex
      have hmiss : missingOf st.received st.meta.total_chunks ≠ [] :=
        (missingOf_ne_nil _ _).mpr hex
      refine ⟨?_, missingOf_sorted _ _, fun i => mem_missingOf _ _ i⟩
      rw [handle_control data reg htyp, hcb]
      unfold resumeRespond
      rw [hst]
      dsimp only
      rw [if_pos hmiss]
    · intro hnex
      have hmiss : missingOf st.received st.meta.total_chunks = [] := by
        by_contra hnn
        exact hnex ((missingOf_ne_nil _ _).mp hnn)
      rw [handle_control data reg htyp, hcb]
      unfold resumeRespond
      rw [hst]
      dsimp only
      rw [if_neg (not_not_intro hmiss)]

/-- C3 witness: resume on the completed demo transfer answers CUM_ACK with
its `highest_contig`. -/
theorem C3_witness :
    handle_reliable_event resumeFrame demoReg =
      .ok ⟨[{ cmd := "CUM_ACK", transfer_id := some "t",
              seq := some (.pInt demoSt.highest_contig) }], demoReg⟩ := by
  have h := C3_resume_response resumeFrame demoReg "t" rfl rfl rfl (by decide)
  refine (h.2 demoSt (by rfl)).2 ?_
  rintro ⟨i, h0, hlt, hm⟩
  have h1 : i < (1 : ℤ) := by simpa [demoSt] using hlt
  have h2 : i = 0 := by omega
  rw [h2] at hm
  exact hm (by decide)

/-- C4: a FILE_CHUNK with non-empty transfer id and decodable payload whose
tag mismatches (case-insensitively) yields exactly one INTEGRITY_FAIL frame
carrying reason "integrity_compromised" with the expected and received
tags, and the registry is left unchanged. -/
theorem C4_integrity_fail_unchanged (data : FrameData) (reg : Registry)
    (tid : String) (seq total : ℤ) (raw : List ℕ)
    (htyp : data.typ = some "FILE_CHUNK") (htid : data.transfer_id = some tid)
    (hne : tid ≠ "") (hseq : pyIntD data.seq = .ok seq)
    (htot : pyIntD data.total_chunks = .ok total)
    (hdec : b64decode (data.payload_b64.getD "") = some raw)
    (hver : pyLower (tagFor raw seq) ≠ pyLower (data.checksum.getD "")) :
    handle_reliable_event data reg =
      .ok ⟨[{ cmd := "INTEGRITY_FAIL", seq := some (.pInt seq),
              transfer_id := some tid, reason := some "integrity_compromised",
              expected := some (tagFor raw seq),
              received := some (data.checksum.getD "") }], reg⟩ := by
  rw [handle_chunk data reg htyp seq total hseq htot,
    chunkBranch_integrity_fail data seq total reg tid raw htid hne hdec hver]

/-- C4 witness: tag "deadbeef" against the empty payload at sequence 0. -/
theorem C4_witness :
    handle_reliable_event badTagChunk [] =
      .ok ⟨[{ cmd := "INTEGRITY_FAIL", seq := some (.pInt 0),
              transfer_id := some "t", reason := some "integrity_compromised",
              expected := some (tagFor [] 0),
              received := some (badTagChunk.checksum.getD "") }], []⟩ :=
  C4_integrity_fail_unchanged badTagChunk [] "t" 0 0 [] rfl rfl (by decide)
    rfl rfl rfl (by decide)

/-- C5: for a valid chunk, a CUM_ACK carrying the updated `highest_contig`
is emitted exactly when the stored `meta.total_chunks` is nonzero and
either the sequence is a multiple of 4 or the transfer just completed;
otherwise only the ACK is emitted. -/
theorem C5_cum_ack_policy (data : FrameData) (reg : Registry) (tid : String)
    (seq total : ℤ) (raw : List ℕ)
    (htyp : data.typ = some "FILE_CHUNK") (htid : data.transfer_id = some tid)
    (hne : tid ≠ "") (hseq : pyIntD data.seq = .ok seq)
    (htot : pyIntD data.total_chunks = .ok total)
    (hdec : b64decode (data.payload_b64.getD "") = some raw)
    (hver : pyLower (tagFor raw seq) = pyLower (data.checksum.getD "")) :
    ((chunkState data total reg tid seq).meta.total_chunks ≠ 0 ∧
       (seq % 4 = 0 ∨ (chunkState data total reg tid seq).highest_contig =
          (chunkState data total reg tid seq).meta.total_chunks - 1) →
      handle_reliable_event data reg =
        .ok ⟨[chunkAck tid seq (tagFor raw seq) (data.checksum.getD ""),
              { cmd := "CUM_ACK", transfer_id := some tid,
                seq := some (.pInt (chunkState data total reg tid seq).highest_contig) }],
             regSet reg tid (chunkState data total reg tid seq)⟩) ∧
    ((chunkState data total reg tid seq).meta.total_chunks = 0 ∨
       ¬(seq % 4 = 0 ∨ (chunkState data total reg tid seq).highest_contig =
          (chunkState data total reg tid seq).meta.total_chunks - 1) →
      handle_reliable_event data reg =
        .ok ⟨[chunkAck tid seq (tagFor raw seq) (data.checksum.getD "")],
             regSet reg tid (chunkState data total reg tid seq)⟩) := by
  have hh := handle_chunk data reg htyp seq total hseq htot
  rw [chunkBranch_valid data seq total reg tid raw htid hne hdec hver] at hh
  constructor
  · rintro ⟨h0, hcond⟩
    rw [hh, if_pos h0, if_pos hcond]
  · intro hor
    rw [hh]
    rcases hor with h0 | hcond
    · rw [if_neg (not_not_intro h0)]
    · by_cases hA : (chunkState data total reg tid seq).meta.total_chunks = 0
      · rw [if_neg (not_not_intro hA)]
      · rw [if_pos hA, if_neg hcond]

/-- C5 witness: the demo chunk has sequence 0 (a multiple of 4) and
completes its 1-chunk transfer, so the CUM_ACK is emitted. -/
theorem C5_witness :
    handle_reliable_event demoChunk [] =
      .ok ⟨[chunkAck "t" 0 (tagFor [] 0) (demoChunk.checksum.getD ""),
            { cmd := "CUM_ACK", transfer_id := some "t",
              seq := some (.pInt (chunkState demoChunk 1 [] "t" 0).highest_contig) }],
           regSet [] "t" (chunkState demoChunk 1 [] "t" 0)⟩ :=
  (C5_cum_ack_policy demoChunk [] "t" 0 1 [] rfl rfl (by decide) rfl rfl rfl
    (by rfl)).1 ⟨by decide, Or.inl (by decide)⟩

/-- C6: processing the same valid chunk twice is idempotent on the
registry: the second invocation leaves the stored state exactly as after
the first, and both invocations emit the ACK for that sequence. -/
theorem C6_idempotent_receipt (data : FrameData) (reg : Registry)
    (tid : String) (seq total : ℤ) (raw : List ℕ)
    (htyp : data.typ = some "FILE_CHUNK") (htid : data.transfer_id = some tid)
    (hne : tid ≠ "") (hseq : pyIntD data.seq = .ok seq)
    (htot : pyIntD data.total_chunks = .ok total)
    (hdec : b64decode (data.payload_b64.getD "") = some raw)
    (hver : pyLower (tagFor raw seq) = pyLower (data.checksum.getD "")) :
    ∀ out1 out2 : HandleOut,
      handle_reliable_event data reg = .ok out1 →
      handle_reliable_event data out1.reg = .ok out2 →
      out2.reg = out1.reg ∧
      regGet out1.reg tid = some (chunkState data total reg tid seq) ∧
      chunkAck tid seq (tagFor raw seq) (data.checksum.getD "") ∈ out1.sends ∧
      chunkAck tid seq (tagFor raw seq) (data.checksum.getD "") ∈ out2.sends := by
  intro out1 out2 h1 h2
  have hh1 := handle_chunk data reg htyp seq total hseq htot
  rw [chunkBranch_valid data seq total reg tid raw htid hne hdec hver] at hh1
  rw [h1] at hh1
  injection hh1 with hh1
  subst hh1
  dsimp only at h2 ⊢
  have hget1 : regGet (regSet reg tid (chunkState data total reg tid seq)) tid
      = some (chunkState data total reg tid seq) := by
    rw [regGet_regSet, if_pos rfl]
  have hst2 : chunkState data total
      (regSet reg tid (chunkState data total reg tid seq)) tid seq =
      chunkState data total reg tid seq := by
    show recordSeq ((regGet (regSet reg tid (chunkState data total reg tid seq))
      tid).getD (freshState data total)) seq = chunkState data total reg tid seq
    rw [hget1]
    exact recordSeq_mem_eq _ _ (mem_recordSeq _ _)
  have hh2 := handle_chunk data
    (regSet reg tid (chunkState data total reg tid seq)) htyp seq total hseq htot
  rw [chunkBranch_valid data seq total
    (regSet reg tid (chunkState data total reg tid seq)) tid raw htid hne hdec hver,
    hst2] at hh2
  rw [h2] at hh2
  injection hh2 with hh2
  subst hh2
  refine ⟨?_, hget1, List.mem_cons_self _ _, List.mem_cons_self _ _⟩
  exact regSet_regSet reg tid (chunkState data total reg tid seq)

/-- C6 witness: the demo chunk delivered twice from the empty registry. -/
theorem C6_witness :
    (HandleOut.mk
        [chunkAck "t" 0 "00000000" "00000000",
         { cmd := "CUM_ACK", transfer_id := some "t", seq := some (.pInt 0) }]
        [("t", demoSt)]).reg =
      (HandleOut.mk
        [chunkAck "t" 0 "00000000" "00000000",
         { cmd := "CUM_ACK", transfer_id := some "t", seq := some (.pInt 0) }]
        [("t", demoSt)]).reg ∧
    regGet (HandleOut.mk
        [chunkAck "t" 0 "00000000" "00000000",
         { cmd := "CUM_ACK", transfer_id := some "t", seq := some (.pInt 0) }]
        [("t", demoSt)]).reg "t" = some (chunkState demoChunk 1 [] "t" 0) ∧
    chunkAck "t" 0 (tagFor [] 0) (demoChunk.checksum.getD "") ∈
      (HandleOut.mk
        [chunkAck "t" 0 "00000000" "00000000",
         { cmd := "CUM_ACK", transfer_id := some "t", seq := some (.pInt 0) }]
        [("t", demoSt)]).sends ∧
    chunkAck "t" 0 (tagFor [] 0) (demoChunk.checksum.getD "") ∈
      (HandleOut.mk
        [chunkAck "t" 0 "00000000" "00000000",
         { cmd := "CUM_ACK", transfer_id := some "t", seq := some (.pInt 0) }]
        [("t", demoSt)]).sends :=
  C6_idempotent_receipt demoChunk [] "t" 0 1 [] rfl rfl (by decide) rfl rfl
    rfl (by rfl) _ _ (by rfl) (by rfl)

/-- C7 counterexample: an undecodable base64 payload is NACKed with reason
"invalid_base64", not "invalid_encoding" as the claim states. -/
theorem C7_counterexample :
    handle_reliable_event badB64Chunk [] =
      .ok ⟨[{ cmd := "NACK", seq := some (.pInt 0), transfer_id := some "t",
              reason := some "invalid_base64" }], []⟩ ∧
    "invalid_base64" ≠ "invalid_encoding" :=
  ⟨by rfl, by decide⟩

/-- C7 (amended): an undecodable base64 payload on a chunk with non-empty
transfer id yields exactly one NACK with reason "invalid_base64", stops
processing, and leaves the registry unchanged. -/
theorem C7_invalid_base64 (data : FrameData) (reg : Registry) (tid : String)
    (seq total : ℤ)
    (htyp : data.typ = some "FILE_CHUNK") (htid : data.transfer_id = some tid)
    (hne : tid ≠ "") (hseq : pyIntD data.seq = .ok seq)
    (htot : pyIntD data.total_chunks = .ok total)
    (hdec : b64decode (data.payload_b64.getD "") = none) :
    handle_reliable_event data reg =
      .ok ⟨[{ cmd := "NACK", seq := some (.pInt seq), transfer_id := some tid,
              reason := some "invalid_base64" }], reg⟩ := by
  rw [handle_chunk data reg htyp seq total hseq htot,
    chunkBranch_bad_b64 data seq total reg tid htid hne hdec]

/-- C7 witness: the bad-base64 chunk against the empty registry. -/
theorem C7_witness :
    handle_reliable_event badB64Chunk [] =
      .ok ⟨[{ cmd := "NACK", seq := some (.pInt 0), transfer_id := some "t",
              reason := some "invalid_base64" }], []⟩ :=
  C7_invalid_base64 badB64Chunk [] "t" 0 0 rfl rfl (by decide) rfl rfl rfl

/-- C8 counterexample: a frame whose `seq` makes `int(...)` raise is NACKed
with reason prefixed "exception:", not "internal_error:" as the claim
states. -/
theorem C8_counterexample :
    on_reliable_event badSeqFrame [] =
      ([{ cmd := "NACK", seq := some (.pStr "x"),
          reason := some "exception:invalid literal for int() with base 10: x" }],
       []) ∧
    "exception:invalid literal for int() with base 10: x" ≠
      "internal_error:invalid literal for int() with base 10: x" :=
  ⟨by rfl, by decide⟩

/-- C8 (amended): every failure raised inside `handle_reliable_event` is
caught by the outermost dispatch and converted into a NACK whose `seq` is
the raw frame sequence (or the sentinel -1) and whose reason is
"exception:" followed by the failure detail; nothing propagates. -/
theorem C8_exception_nack (data : FrameData) (reg : Registry) (e : String)
    (h : handle_reliable_event data reg = .error e) :
    on_reliable_event data reg =
      ([{ cmd := "NACK", seq := some (data.seq.getD (.pInt (-1))),
          reason := some ("exception:" ++ e) }], reg) := by
  unfold on_reliable_event
  rw [h]

/-- C8 witness: the bad-sequence frame against the empty registry. -/
theorem C8_witness :
    on_reliable_event badSeqFrame [] =
      ([{ cmd := "NACK", seq := some (.pStr "x"),
          reason := some "exception:invalid literal for int() with base 10: x" }],
       []) := by
  have h := C8_exception_nack badSeqFrame []
    "invalid literal for int() with base 10: x" (by rfl)
  exact h

/-- C9: a MSG frame never touches the registry, and a MSG frame with an
integer sequence and no integrity tag yields exactly one ACK carrying that
sequence. -/
theorem C9_msg_no_registry (data : FrameData) (reg : Registry)
    (htyp : data.typ = some "MSG") :
    (on_reliable_event data reg).2 = reg ∧
    ∀ seq : ℤ, data.seq = some (.pInt seq) → data.checksum.getD "" = "" →
      (on_reliable_event data reg).1 =
        [{ cmd := "ACK", seq := some (.pInt seq) }] := by
  constructor
  · unfold on_reliable_event
    cases hh : handle_reliable_event data reg with
    | error e => rfl
    | ok out =>
      show out.reg = reg
      unfold handle_reliable_event at hh
      rw [htyp, if_pos rfl] at hh
      cases hs : pyIntD data.seq with
      | error e => rw [hs] at hh; exact absurd hh (by simp [exBind])
      | ok seq =>
        rw [hs] at hh
        have h2 : HandleOut.mk (msgBranch data seq) reg = out := by
          simpa [exBind] using hh
        rw [← h2]
  · intro seq hseq hcs
    have hs : pyIntD data.seq = .ok seq := by rw [hseq]; rfl
    unfold on_reliable_event
    rw [handle_msg data reg htyp seq hs]
    show msgBranch data seq = _
    unfold msgBranch
    rw [hcs]
    rfl

/-- C9 witness: `Message(seq=7, payload="hello")` with no tag. -/
theorem C9_witness :
    (on_reliable_event demoMsg []).2 = [] ∧
    (on_reliable_event demoMsg []).1 =
      [{ cmd := "ACK", seq := some (.pInt 7) }] := by
  have h := C9_msg_no_registry demoMsg [] rfl
  exact ⟨h.1, h.2 7 rfl rfl⟩

/-- C10: a decodable chunk whose checksum field is absent or empty always
fails the integrity check (the recomputed tag is a hex string of length at
least 8, never empty, and exactly 8 for a 32-bit sequence): exactly one
INTEGRITY_FAIL is emitted, nothing is ACKed, the registry is unchanged. -/
theorem C10_empty_checksum (data : FrameData) (reg : Registry) (tid : String)
    (seq total : ℤ) (raw : List ℕ)
    (htyp : data.typ = some "FILE_CHUNK") (htid : data.transfer_id = some tid)
    (hne : tid ≠ "") (hseq : pyIntD data.seq = .ok seq)
    (htot : pyIntD data.total_chunks = .ok total)
    (hdec : b64decode (data.payload_b64.getD "") = some raw)
    (hcs : data.checksum.getD "" = "") :
    handle_reliable_event data reg =
      .ok ⟨[{ cmd := "INTEGRITY_FAIL", seq := some (.pInt seq),
              transfer_id := some tid, reason := some "integrity_compromised",
              expected := some (tagFor raw seq), received := some "" }], reg⟩ ∧
    tagFor raw seq ≠ "" ∧
    (0 ≤ seq → seq < 4294967296 → (tagFor raw seq).length = 8) := by
  have hver : pyLower (tagFor raw seq) ≠ pyLower (data.checksum.getD "") := by
    rw [hcs]
    intro hbad
    have hlen : (pyLower (tagFor raw seq)).length = 0 := by rw [hbad]; rfl
    rw [pyLower_length] at hlen
    have h8 : 8 ≤ (tagFor raw seq).length := by
      unfold tagFor
      exact eight_le_pyHex08_length _
    omega
  refine ⟨?_, ?_, ?_⟩
  · rw [handle_chunk data reg htyp seq total hseq htot,
      chunkBranch_integrity_fail data seq total reg tid raw htid hne hdec hver,
      hcs]
  · show pyHex08 (pyXor (((crc32 raw % 4294967296 : ℕ)) : ℤ) seq) ≠ ""
    exact pyHex08_ne_empty _
  · intro h0 hlt
    obtain ⟨sn, rfl⟩ := Int.eq_ofNat_of_zero_le h0
    have hsn : sn < 4294967296 := by exact_mod_cast hlt
    have hc : crc32 raw % 4294967296 < 4294967296 := Nat.mod_lt _ (by norm_num)
    show (pyHex08 (((crc32 raw % 4294967296 ^^^ sn : ℕ) : ℤ))).length = 8
    exact pyHex08_length_eight _ (Int.natCast_nonneg _)
      (by exact_mod_cast xor_lt_4294967296 _ _ hc hsn)

/-- C10 witness: the chunk with no checksum field, sequence 0, empty
payload. -/
theorem C10_witness :
    handle_reliable_event noChecksumChunk [] =
      .ok ⟨[{ cmd := "INTEGRITY_FAIL", seq := some (.pInt 0),
              transfer_id := some "t", reason := some "integrity_compromised",
              expected := some (tagFor [] 0), received := some "" }], []⟩ ∧
    tagFor [] 0 ≠ "" ∧
    (tagFor [] 0).length = 8 := by
  have h := C10_empty_checksum noChecksumChunk [] "t" 0 0 [] rfl rfl
    (by decide) rfl rfl rfl rfl
  exact ⟨h.1, h.2.1, h.2.2 (by norm_num) (by norm_num)⟩

end ChatCast
